import Mathlib

/-!
Verification development for the IBM quantum-hardware-evolution repository
(two scripts: a calibration-data extractor, `main.py`, and a roadmap
plotter, `plot_graphs.py`).

The extractor's per-qubit loop, its readout-error fallback chain, the
per-chip and per-generation statistics, the CSV row serialization, and the
plotter's numeric-column cleaning and log-linear trend fitter are embedded
shallowly below.  Python floats are modelled as rationals (reals where a
logarithm is involved); a raised-and-caught exception is an explicit
constructor; the non-finite results of numpy float division by zero and of
`np.median` on an empty list are modelled as `Option.none`.
-/

namespace QHE

/-! ## Decimal strings

`f"{x:.4f}"`, `str(i)` and `float(s)` are modelled by executable decimal
printers and parsers over rationals.  Python formats a binary double with
round-half-even on its exact binary value; the model rounds the rational
half up, which agrees on every value whose scaled form is not an exact
half-integer (ties are unreachable from the program's data), and prints a
plain `0` where Python would print a negative zero. -/

/-- Little-endian base-10 digits, fuelled so that the kernel can reduce it. -/
def natDigitsAux (fuel n : ℕ) : List ℕ :=
  match fuel with
  | 0 => []
  | f + 1 => if n = 0 then [] else n % 10 :: natDigitsAux f (n / 10)

/-- Little-endian base-10 digits of `n` (empty for `0`). -/
def digitsOf (n : ℕ) : List ℕ := natDigitsAux n n

/-- Value of a little-endian digit list. -/
def ofValLE : List ℕ → ℕ
  | [] => 0
  | d :: l => d + 10 * ofValLE l

/-- Numeric value of a digit character. -/
def digitVal (c : Char) : ℕ := c.toNat - 48

/-- Value of a big-endian digit-character list. -/
def valOfDigitChars (cs : List Char) : ℕ :=
  cs.foldl (fun a c => 10 * a + digitVal c) 0

/-- Big-endian digit characters of `n` (empty for `0`). -/
def digitChars (n : ℕ) : List Char := ((digitsOf n).map Nat.digitChar).reverse

/-- Big-endian digit characters of `n`, printing `0` as `"0"`. -/
def intChars (n : ℕ) : List Char := if n = 0 then ['0'] else digitChars n

/-- Model of Python `str` on a non-negative integer. -/
def natToString (n : ℕ) : String := String.mk (intChars n)

/-- Model of `int(s)` restricted to digit strings: the decimal reading used
when the exported qubit-index column is loaded back. -/
def parseNat (s : String) : Option ℕ :=
  if s.data ≠ [] ∧ s.data.all Char.isDigit then some (valOfDigitChars s.data)
  else none

/-- Fractional part of the 4-decimal print, left-padded with zeros to width 4. -/
def pad4 (m : ℕ) : List Char :=
  List.replicate (4 - (digitChars m).length) '0' ++ digitChars m

/-- The integer `round(q * 10^4)` that `f"{q:.4f}"` prints (half rounded up). -/
def num4 (q : ℚ) : ℤ := ⌊q * 10000 + 1 / 2⌋

/-- Model of `f"{q:.4f}"`: sign, integer part, dot, exactly four fractional
digits. -/
def fmt4 (q : ℚ) : String :=
  String.mk
    ((if num4 q < 0 then ['-'] else []) ++
      intChars ((num4 q).natAbs / 10000) ++ '.' :: pad4 ((num4 q).natAbs % 10000))

/-- Split a character list at every occurrence of `sep` (never returns `[]`). -/
def splitOnChar (sep : Char) : List Char → List (List Char)
  | [] => [[]]
  | c :: rest =>
    match splitOnChar sep rest with
    | [] => [[]]
    | f :: fs => if c = sep then [] :: f :: fs else (c :: f) :: fs

/-- Join character lists with a separator character. -/
def joinWith (sep : Char) : List (List Char) → List Char
  | [] => []
  | [f] => f
  | f :: fs => f ++ sep :: joinWith sep fs

/-- Strip one leading sign character, reporting whether it was a minus. -/
def splitSign (cs : List Char) : Bool × List Char :=
  match cs with
  | [] => (false, [])
  | c :: r =>
    if c = '-' then (true, r)
    else if c = '+' then (false, r)
    else (false, c :: r)

/-- Apply a parsed sign. -/
def applySign (neg : Bool) (v : ℚ) : ℚ := if neg then -v else v

/-- Model of Python `float(s)` / `pd.to_numeric` on plain decimal literals:
optional sign, digits with at most one dot, at least one digit.  (Exponent,
`inf`/`nan` and underscore forms are outside the program's data and are not
modelled.) -/
def parseFloat (s : String) : Option ℚ :=
  match splitOnChar '.' (splitSign s.data).2 with
  | [ds] =>
    if ds ≠ [] ∧ ds.all Char.isDigit then
      some (applySign (splitSign s.data).1 (valOfDigitChars ds))
    else none
  | [a, b] =>
    if (a ++ b) ≠ [] ∧ (a ++ b).all Char.isDigit then
      some (applySign (splitSign s.data).1
        ((valOfDigitChars a : ℚ) + (valOfDigitChars b : ℚ) / 10 ^ b.length))
    else none
  | _ => none

/-! ## CSV flat file

`csv.writer` joins fields with `,` and terminates each record with CRLF;
with `QUOTE_MINIMAL` a field free of delimiter, quote and newline characters
is written verbatim, so on such fields the writer is exactly the plain
join modelled here.  Re-reading in text mode decodes CRLF to `\n` and
splits on lines; for a file whose carriage returns occur only inside CRLF
pairs (true of this writer's output on such fields) that decoding is the
carriage-return filter below. -/

/-- A character that needs no CSV quoting and survives the line splitting. -/
def cleanChar (c : Char) : Bool :=
  ¬ (c = ',' ∨ c = '"' ∨ c = '\r' ∨ c = '\n')

/-- A field the CSV writer emits verbatim. -/
def cleanField (s : String) : Prop := s.data.all cleanChar = true

instance (s : String) : Decidable (cleanField s) := by
  unfold cleanField
  infer_instance

/-- One CSV record: fields joined with commas. -/
def csvLine (fields : List String) : List Char :=
  joinWith ',' (fields.map String.data)

/-- Model of `csv.writer(...).writerows`: each record followed by CRLF. -/
def writeCSV (rows : List (List String)) : List Char :=
  rows.foldr (fun r acc => csvLine r ++ '\r' :: '\n' :: acc) []

/-- Drop the empty record after the file's final CRLF. -/
def dropTrailingEmpty (ls : List (List Char)) : List (List Char) :=
  if ls.getLast? = some [] then ls.dropLast else ls

/-- Model of re-reading the file: universal-newline decoding, line split,
the trailing empty line dropped, each line split at commas. -/
def readCSV (file : List Char) : List (List String) :=
  (dropTrailingEmpty (splitOnChar '\n' (file.filter (fun c => ¬ c = '\r')))).map
    (fun l => (splitOnChar ',' l).map String.mk)

/-! ## Extractor data model (`main.py`, `main`)

A qubit of a backend supplies `target.qubit_properties[i]` (which can raise
or be falsy), a `measure`-operation error entry, and a legacy
`backend.properties().readout_error(i)` lookup.  `Src.exn` marks an access
whose code path raises (the code catches it); `Src.ok none` a path that
yields Python `None` / a falsy object. -/

/-- Result of an accessor that the code wraps in `try`/`except`. -/
inductive Src (α : Type) where
  | ok : α → Src α
  | exn : Src α
deriving DecidableEq

/-- The `QubitProperties` record read at line 148: optional `t1`, `t2`
(seconds) and optional direct `readout_error` (lines 156, 162, 169). -/
structure QubitProps where
  t1 : Option ℚ
  t2 : Option ℚ
  readout_error : Option ℚ
deriving DecidableEq

/-- Everything the per-qubit loop body can observe about qubit `i`. -/
structure QubitInput where
  props : Src (Option QubitProps)
  measureErr : Src (Option ℚ)
  legacyErr : Src (Option ℚ)
deriving DecidableEq

/-- One backend: normalized chip name and its qubits in index order. -/
structure Device where
  chip_name : String
  qubits : List QubitInput

/-- The mutable state of the extraction loops: per-chip accumulators
(`chip_t1`, `chip_t2`, `chip_ro`), per-generation accumulators
(`era_t1_values`, `era_t2_values`) and the global row list
(`all_data_rows`). -/
structure ExtState where
  chip_t1 : List ℚ
  chip_t2 : List ℚ
  chip_ro : List ℚ
  era_t1 : List ℚ
  era_t2 : List ℚ
  rows : List (List String)
deriving DecidableEq

/-- The all-empty starting state. -/
def initState : ExtState := ⟨[], [], [], [], [], []⟩

/-- Seconds to microseconds: the `* 1e6` of lines 157 and 163. -/
def microseconds (t : ℚ) : ℚ := t * 1000000

/-- Lines 167-195: the readout-error fallback chain.  Attempt A takes the
direct property when it is not `None`; attempt B (inside `try`) takes the
`measure` operation's error only when `getattr(op_props, 'error', None)`
is truthy, i.e. present and nonzero; attempt C (inside `try`) takes the
legacy lookup's value, a raise or a `None` result (whose `* 100` raises)
falling through.  Every accepted value is scaled by 100. -/
def ro_resolve (a : Option ℚ) (b c : Src (Option ℚ)) : Option ℚ :=
  let r1 : Option ℚ :=
    match a with
    | some v => some (v * 100)
    | none => none
  let r2 : Option ℚ :=
    match r1 with
    | some v => some v
    | none =>
      match b with
      | .ok (some v) => if v = 0 then none else some (v * 100)
      | _ => none
  match r2 with
  | some v => some v
  | none =>
    match c with
    | .ok (some v) => some (v * 100)
    | _ => none

/-- Line 204: `f"{t2_val:.4f}" if t2_val else ""` — a truthiness test, so
both an absent and a zero `t2_val` serialize empty. -/
def t2Field (t2v : Option ℚ) : String :=
  match t2v with
  | some w => if w = 0 then "" else fmt4 w
  | none => ""

/-- Line 205: `f"{ro_val:.4f}" if ro_val is not None else ""` — an explicit
`None` test. -/
def roField (rov : Option ℚ) : String :=
  match rov with
  | some w => fmt4 w
  | none => ""

/-- Lines 199-206: the emitted row. -/
def mkRow (era chip : String) (i : ℕ) (t1v : ℚ) (t2v rov : Option ℚ) :
    List String :=
  [era, chip, natToString i, fmt4 t1v, t2Field t2v, roField rov]

/-- Lines 156-159: append a present `t1` to chip and era accumulators. -/
def accT1 (t1v : Option ℚ) (st : ExtState) : ExtState :=
  match t1v with
  | some v => { st with chip_t1 := st.chip_t1 ++ [v], era_t1 := st.era_t1 ++ [v] }
  | none => st

/-- Lines 162-165: append a present `t2` to chip and era accumulators. -/
def accT2 (t2v : Option ℚ) (st : ExtState) : ExtState :=
  match t2v with
  | some v => { st with chip_t2 := st.chip_t2 ++ [v], era_t2 := st.era_t2 ++ [v] }
  | none => st

/-- Lines 194-195: append a resolved readout error. -/
def accRo (rov : Option ℚ) (st : ExtState) : ExtState :=
  match rov with
  | some v => { st with chip_ro := st.chip_ro ++ [v] }
  | none => st

/-- Lines 198-207: emit a row iff `t1_val is not None`. -/
def emitRow (era chip : String) (i : ℕ) (t1v t2v rov : Option ℚ)
    (st : ExtState) : ExtState :=
  match t1v with
  | some v => { st with rows := st.rows ++ [mkRow era chip i v t2v rov] }
  | none => st

/-- Lines 144-210, one iteration: a raising (`except: continue`) or falsy
(`if not props: continue`) properties accessor leaves the state untouched;
otherwise `t1`/`t2` are scaled and accumulated, the readout chain runs, and
a row is emitted iff `t1` was present. -/
def stepQubit (era chip : String) (i : ℕ) (q : QubitInput) (st : ExtState) :
    ExtState :=
  match q.props with
  | .exn => st
  | .ok none => st
  | .ok (some props) =>
    let t1v := props.t1.map microseconds
    let t2v := props.t2.map microseconds
    let rov := ro_resolve props.readout_error q.measureErr q.legacyErr
    emitRow era chip i t1v t2v rov (accRo rov (accT2 t2v (accT1 t1v st)))

/-- The `for i in range(num_qubits)` loop from index `i` on. -/
def processQubits (era chip : String) : ℕ → List QubitInput → ExtState → ExtState
  | _, [], st => st
  | i, q :: qs, st => processQubits era chip (i + 1) qs (stepQubit era chip i q st)

/-- Lines 125-210: one backend — fresh chip accumulators, then the qubit loop. -/
def processDevice (era : String) (d : Device) (st : ExtState) : ExtState :=
  processQubits era d.chip_name 0 d.qubits
    { st with chip_t1 := [], chip_t2 := [], chip_ro := [] }

/-- The device loop of one era (the era accumulators start empty at line
121-122 and persist across the era's devices). -/
def runEra (era : String) (ds : List Device) (st : ExtState) : ExtState :=
  ds.foldl (fun acc d => processDevice era d acc) st

/-- Insertion of one element into a sorted list. -/
def insertSorted (a : ℚ) : List ℚ → List ℚ
  | [] => [a]
  | b :: l => if a ≤ b then a :: b :: l else b :: insertSorted a l

/-- Insertion sort (the sort underlying `np.median`). -/
def sortQ (l : List ℚ) : List ℚ := l.foldr insertSorted []

/-- Model of `np.median` on a nonempty list: middle element of the sorted
list, or the mean of the two middle elements.  (The empty case, which numpy
maps to `nan`, is guarded at every call site of this model.) -/
def median (l : List ℚ) : ℚ :=
  let s := sortQ l
  let n := l.length
  if n = 0 then 0
  else if n % 2 = 1 then s.getD (n / 2) 0
  else (s.getD (n / 2 - 1) 0 + s.getD (n / 2) 0) / 2

/-- The per-chip console line of lines 213-226. -/
structure ChipReport where
  n : ℕ
  med_t1 : ℚ
  med_t2 : ℚ
  ratio : ℚ
  ro : Option ℚ
deriving DecidableEq

/-- Lines 213-228: statistics for one chip, `none` when no qubit
contributed a `t1` value (`Insufficient data`).  `med_t2` is `0` when no
`t2` was collected, the ratio substitutes `0` unless `med_t1 > 0`, and the
readout median is reported only when readout values exist (`N/A`
otherwise). -/
def chipReport (st : ExtState) : Option ChipReport :=
  if st.chip_t1 = [] then none
  else
    let med_t1 := median st.chip_t1
    let med_t2 := if st.chip_t2 = [] then 0 else median st.chip_t2
    some
      { n := st.chip_t1.length
        med_t1 := med_t1
        med_t2 := med_t2
        ratio := if 0 < med_t1 then med_t2 / med_t1 else 0
        ro := if st.chip_ro = [] then none else some (median st.chip_ro) }

/-- The generation summary line of lines 233-237. -/
structure EraReport where
  n : ℕ
  grand_t1 : ℚ
  grand_t2 : Option ℚ
  grand_ratio : Option ℚ
deriving DecidableEq

/-- Lines 233-237: printed only when the era collected `t1` values.
`grand_t2 = np.median(era_t2_values)` is `nan` on an empty list (modelled
`none`), and `grand_ratio = grand_t2 / grand_t1` is an unguarded float
division: a zero `grand_t1` yields `inf`/`nan`, modelled `none`. -/
def eraReport (st : ExtState) : Option EraReport :=
  if st.era_t1 = [] then none
  else
    let g1 := median st.era_t1
    let g2 : Option ℚ := if st.era_t2 = [] then none else some (median st.era_t2)
    some
      { n := st.era_t1.length
        grand_t1 := g1
        grand_t2 := g2
        grand_ratio :=
          match g2 with
          | some v => if g1 = 0 then none else some (v / g1)
          | none => none }

/-- The `t1` values a single qubit contributes to the accumulators. -/
def qubitT1Delta (q : QubitInput) : List ℚ :=
  match q.props with
  | .ok (some p) =>
    match p.t1 with
    | some t => [microseconds t]
    | none => []
  | _ => []

/-- The `t2` values a single qubit contributes to the accumulators. -/
def qubitT2Delta (q : QubitInput) : List ℚ :=
  match q.props with
  | .ok (some p) =>
    match p.t2 with
    | some t => [microseconds t]
    | none => []
  | _ => []

/-! ## Spec-side readout chains (for claim C3) -/

/-- The value a source yields when consulted, a raise reading as
not-found. -/
def srcVal : Src (Option ℚ) → Option ℚ
  | .ok v => v
  | .exn => none

/-- The fallback chain exactly as the claim words it: try the three sources
in order, stop at the first non-null value, scale the accepted value by
100. -/
def roChainClaim (a : Option ℚ) (b c : Src (Option ℚ)) : Option ℚ :=
  ((a.or (srcVal b)).or (srcVal c)).map (· * 100)

/-- The amended chain: identical except that a zero value from the
`measure`-operation source is treated as not found (the code tests that
entry for truthiness, not for `None`). -/
def roChainAmended (a : Option ℚ) (b c : Src (Option ℚ)) : Option ℚ :=
  let bv : Option ℚ :=
    match srcVal b with
    | some v => if v = 0 then none else some v
    | none => none
  ((a.or bv).or (srcVal c)).map (· * 100)

/-! ## Plotter (`plot_graphs.py`) -/

/-- Commas stripped from an entry (`.str.replace(',', '')`, line 68). -/
def stripCommas (cs : List Char) : List Char := cs.filter (fun c => ¬ c = ',')

/-- Case-insensitive `K` detection (`.str.contains('K', case=False)`,
line 72). -/
def hasKmark (cs : List Char) : Bool := cs.any (fun c => c = 'K' ∨ c = 'k')

/-- Case-insensitive `K` removal (`.str.replace('K', '', case=False)`,
line 76). -/
def stripKmark (cs : List Char) : List Char :=
  cs.filter (fun c => ¬ (c = 'K' ∨ c = 'k'))

/-- Lines 66-86, one entry of the `Qubits` column (string dtype): commas
are stripped; an entry containing the `K` marker has the marker stripped
and the remainder converted with `.astype(float)` — which RAISES on an
unparseable remainder — then scaled by 1000; other entries go through
`pd.to_numeric(errors='coerce')`, whose failures become missing values
(`Except.ok none`) whose rows `dropna` then drops. -/
def clean_entry (s : String) : Except Unit (Option ℚ) :=
  if hasKmark (stripCommas s.data) then
    match parseFloat (String.mk (stripKmark (stripCommas s.data))) with
    | some v => .ok (some (v * 1000))
    | none => .error ()
  else .ok (parseFloat (String.mk (stripCommas s.data)))

deriving instance DecidableEq for Except

/-- The cleaned column: an `astype(float)` failure anywhere aborts the
load; otherwise the missing entries' rows are dropped. -/
def cleanColumn : List String → Except Unit (List ℚ)
  | [] => .ok []
  | s :: rest =>
    match clean_entry s, cleanColumn rest with
    | .error _, _ => .error ()
    | _, .error _ => .error ()
    | .ok none, .ok vs => .ok vs
    | .ok (some v), .ok vs => .ok (v :: vs)

/-- The semantic content of the legend string built at lines 125-131:
either a doubling period in months or the no-growth label. -/
inductive Legend where
  | doubling : ℝ → Legend
  | noGrowth : Legend

/-- One fitted trend line: the two plotted endpoint samples and the legend
entry. -/
structure TrendLine where
  points : List (ℚ × ℝ)
  legend : Legend

/-- `np.log2` of a data value. -/
noncomputable def log2q (q : ℚ) : ℝ := Real.logb 2 (q : ℝ)

/-- Smallest year of a subset (`x.min()`). -/
def minYear : List (ℚ × ℚ) → ℚ
  | [] => 0
  | p :: rest => rest.foldl (fun m q => min m q.1) p.1

/-- Largest year of a subset (`x.max()`). -/
def maxYear : List (ℚ × ℚ) → ℚ
  | [] => 0
  | p :: rest => rest.foldl (fun m q => max m q.1) p.1

/-- The least-squares slope of `np.polyfit(x, log2 y, 1)` in closed form.
(The degenerate all-equal-years case, where `polyfit` emits `nan` and the
legend falls into the no-growth branch, is modelled by the Lean convention
`r / 0 = 0`, which lands the legend in the same branch.) -/
noncomputable def fitSlope (pts : List (ℚ × ℚ)) : ℝ :=
  let n : ℝ := pts.length
  let sx : ℝ := ((pts.map Prod.fst).sum : ℚ)
  let sy : ℝ := (pts.map (fun p => log2q p.2)).sum
  let sxy : ℝ := (pts.map (fun p => (p.1 : ℝ) * log2q p.2)).sum
  let sxx : ℝ := ((pts.map (fun p => p.1 * p.1)).sum : ℚ)
  (n * sxy - sx * sy) / (n * sxx - sx * sx)

/-- The matching least-squares intercept. -/
noncomputable def fitIntercept (pts : List (ℚ × ℚ)) : ℝ :=
  let n : ℝ := pts.length
  let sx : ℝ := ((pts.map Prod.fst).sum : ℚ)
  let sy : ℝ := (pts.map (fun p => log2q p.2)).sum
  (sy - fitSlope pts * sx) / n

/-- Lines 109-140, `process_fit` on a subset of `(year, qubit count)`
points: fewer than two points — no trend line; otherwise a log2-space line
is fitted, sampled at the subset's minimum and maximum year
(`y = 2 ** (slope * x + intercept)`), and the legend states the doubling
period `12 / slope` months for a positive slope, no-growth otherwise.
(The `{months:.1f}` string formatting is abstracted into the real-valued
`Legend.doubling`.) -/
noncomputable def process_fit (pts : List (ℚ × ℚ)) : Option TrendLine :=
  if pts.length < 2 then none
  else
    let s := fitSlope pts
    let b := fitIntercept pts
    let x0 := minYear pts
    let x1 := maxYear pts
    some
      { points := [(x0, (2 : ℝ) ^ (s * (x0 : ℝ) + b)),
                   (x1, (2 : ℝ) ^ (s * (x1 : ℝ) + b))]
        legend := if 0 < s then Legend.doubling (12 / s) else Legend.noGrowth }

/-- The header row written at line 106 / 244. -/
def header : List String :=
  ["Era", "Chip", "Qubit_Index", "T1_us", "T2_us", "Readout_Error_Pct"]

/-- One kept reading, as claim C8 describes the exported file. -/
structure Reading where
  era : String
  chip : String
  idx : ℕ
  t1 : ℚ
  t2 : Option ℚ
  ro : Option ℚ

/-! ## Lemmas: decimal strings -/

lemma natDigitsAux_val : ∀ fuel n, n ≤ fuel → ofValLE (natDigitsAux fuel n) = n := by
  intro fuel
  induction fuel with
  | zero =>
    intro n h
    interval_cases n
    simp [natDigitsAux, ofValLE]
  | succ f ih =>
    intro n h
    by_cases h0 : n = 0
    · subst h0; simp [natDigitsAux, ofValLE]
    · have hdiv : n / 10 ≤ f := by
        have : n / 10 < n := Nat.div_lt_self (Nat.pos_of_ne_zero h0) (by norm_num)
        omega
      simp [natDigitsAux, h0, ofValLE, ih _ hdiv]
      omega

lemma digitsOf_val (n : ℕ) : ofValLE (digitsOf n) = n :=
  natDigitsAux_val n n le_rfl

lemma natDigitsAux_lt : ∀ fuel n d, d ∈ natDigitsAux fuel n → d < 10 := by
  intro fuel
  induction fuel with
  | zero => simp [natDigitsAux]
  | succ f ih =>
    intro n d hd
    by_cases h0 : n = 0
    · simp [natDigitsAux, h0] at hd
    · simp [natDigitsAux, h0] at hd
      rcases hd with h | h
      · omega
      · exact ih _ _ h

lemma digitsOf_lt (n : ℕ) : ∀ d ∈ digitsOf n, d < 10 :=
  fun d hd => natDigitsAux_lt n n d hd

lemma natDigitsAux_length : ∀ fuel n k, n < 10 ^ k → (natDigitsAux fuel n).length ≤ k := by
  intro fuel
  induction fuel with
  | zero => simp [natDigitsAux]
  | succ f ih =>
    intro n k hk
    by_cases h0 : n = 0
    · simp [natDigitsAux, h0]
    · obtain ⟨k1, rfl⟩ : ∃ k1, k = k1 + 1 := by
        refine ⟨k - 1, ?_⟩
        have : k ≠ 0 := by
          rintro rfl
          simp at hk
          omega
        omega
      have hdiv : n / 10 < 10 ^ k1 := by
        rw [Nat.div_lt_iff_lt_mul (by norm_num)]
        calc n < 10 ^ (k1 + 1) := hk
        _ = 10 ^ k1 * 10 := by ring
      simp [natDigitsAux, h0]
      exact ih _ _ hdiv

lemma digitsOf_length (n k : ℕ) (h : n < 10 ^ k) : (digitsOf n).length ≤ k :=
  natDigitsAux_length n n k h

lemma digitsOf_ne_nil (n : ℕ) (h : n ≠ 0) : digitsOf n ≠ [] := by
  obtain ⟨f, rfl⟩ : ∃ f, n = f + 1 := ⟨n - 1, by omega⟩
  simp [digitsOf, natDigitsAux]

lemma digitVal_digitChar (d : ℕ) (h : d < 10) : digitVal (Nat.digitChar d) = d := by
  interval_cases d <;> decide

lemma isDigit_digitChar (d : ℕ) (h : d < 10) : (Nat.digitChar d).isDigit = true := by
  interval_cases d <;> decide

lemma foldl_digitChar (l : List ℕ) (h : ∀ d ∈ l, d < 10) (a : ℕ) :
    List.foldl (fun x c => 10 * x + digitVal c) a ((l.map Nat.digitChar).reverse)
      = a * 10 ^ l.length + ofValLE l := by
  induction l generalizing a with
  | nil => simp [ofValLE]
  | cons d l ih =>
    simp only [List.map_cons, List.reverse_cons, List.foldl_append, List.foldl_cons,
      List.foldl_nil]
    rw [ih (fun x hx => h x (List.mem_cons_of_mem _ hx))]
    rw [digitVal_digitChar d (h d (List.mem_cons_self _ _))]
    simp [ofValLE, pow_succ]
    ring

lemma valOf_digitChars (n : ℕ) : valOfDigitChars (digitChars n) = n := by
  unfold valOfDigitChars digitChars
  rw [foldl_digitChar _ (digitsOf_lt n) 0]
  simp [digitsOf_val]

lemma valOf_intChars (n : ℕ) : valOfDigitChars (intChars n) = n := by
  by_cases h : n = 0
  · subst h; decide
  · simp [intChars, h, valOf_digitChars]

lemma intChars_ne_nil (n : ℕ) : intChars n ≠ [] := by
  by_cases h : n = 0
  · simp [intChars, h]
  · simp [intChars, h, digitChars, digitsOf_ne_nil n h]

lemma digitChars_isDigit (n : ℕ) : ∀ c ∈ digitChars n, c.isDigit = true := by
  intro c hc
  simp only [digitChars, List.mem_reverse, List.mem_map] at hc
  obtain ⟨d, hd, rfl⟩ := hc
  exact isDigit_digitChar d (digitsOf_lt n d hd)

lemma intChars_isDigit (n : ℕ) : ∀ c ∈ intChars n, c.isDigit = true := by
  by_cases h : n = 0
  · simp [intChars, h]
  · simp only [intChars, h, if_false]
    exact digitChars_isDigit n

lemma parseNat_natToString (n : ℕ) : parseNat (natToString n) = some n := by
  unfold parseNat natToString
  have h1 : (String.mk (intChars n)).data = intChars n := rfl
  rw [h1]
  rw [if_pos ⟨intChars_ne_nil n, List.all_eq_true.mpr fun c hc => intChars_isDigit n c hc⟩]
  rw [valOf_intChars]

lemma foldl_val_zeros (k : ℕ) :
    List.foldl (fun x c => 10 * x + digitVal c) 0 (List.replicate k '0') = 0 := by
  induction k with
  | zero => simp
  | succ m ih => simpa [List.replicate_succ, digitVal] using ih

lemma valOf_pad4 (m : ℕ) : valOfDigitChars (pad4 m) = m := by
  unfold valOfDigitChars pad4
  rw [List.foldl_append, foldl_val_zeros]
  exact valOf_digitChars m

lemma pad4_length (m : ℕ) (h : m < 10000) : (pad4 m).length = 4 := by
  have hlen : (digitChars m).length ≤ 4 := by
    have : (digitsOf m).length ≤ 4 := digitsOf_length m 4 (by norm_num at h ⊢; omega)
    simpa [digitChars] using this
  simp [pad4]
  omega

lemma pad4_isDigit (m : ℕ) : ∀ c ∈ pad4 m, c.isDigit = true := by
  intro c hc
  simp only [pad4, List.mem_append, List.mem_replicate] at hc
  rcases hc with ⟨_, rfl⟩ | hc
  · decide
  · exact digitChars_isDigit m c hc

lemma isDigit_ne_special (c : Char) (h : c.isDigit = true) :
    ¬ c = '.' ∧ ¬ c = ',' ∧ ¬ c = '-' ∧ ¬ c = '+' ∧ ¬ c = '\r' ∧ ¬ c = '\n'
      ∧ ¬ c = '"' ∧ ¬ c = 'K' ∧ ¬ c = 'k' := by
  refine ⟨?_, ?_, ?_, ?_, ?_, ?_, ?_, ?_, ?_⟩ <;>
    · intro hc
      subst hc
      exact absurd h (by decide)

/-! ## Lemmas: splitting and joining -/

lemma splitOnChar_ne_nil (sep : Char) (cs : List Char) : splitOnChar sep cs ≠ [] := by
  induction cs with
  | nil => simp [splitOnChar]
  | cons c rest ih =>
    simp only [splitOnChar]
    cases h : splitOnChar sep rest with
    | nil => simp
    | cons f fs =>
      by_cases hc : c = sep <;> simp [hc]

lemma splitOnChar_no_sep (sep : Char) (A : List Char) (h : ∀ c ∈ A, ¬ c = sep) :
    splitOnChar sep A = [A] := by
  induction A with
  | nil => rfl
  | cons c rest ih =>
    have hrest := ih fun x hx => h x (List.mem_cons_of_mem _ hx)
    simp only [splitOnChar, hrest]
    rw [if_neg (h c (List.mem_cons_self _ _))]

lemma splitOnChar_append_sep (sep : Char) (A R : List Char) (h : ∀ c ∈ A, ¬ c = sep) :
    splitOnChar sep (A ++ sep :: R) = A :: splitOnChar sep R := by
  induction A with
  | nil =>
    simp only [List.nil_append, splitOnChar]
    cases hR : splitOnChar sep R with
    | nil => exact absurd hR (splitOnChar_ne_nil sep R)
    | cons f fs => simp
  | cons c rest ih =>
    have hrest := ih fun x hx => h x (List.mem_cons_of_mem _ hx)
    simp only [List.cons_append, splitOnChar, List.append_eq, hrest]
    rw [if_neg (h c (List.mem_cons_self _ _))]

lemma splitOnChar_joinWith (sep : Char) :
    ∀ fields : List (List Char), fields ≠ [] →
      (∀ f ∈ fields, ∀ c ∈ f, ¬ c = sep) →
      splitOnChar sep (joinWith sep fields) = fields := by
  intro fields
  induction fields with
  | nil => intro h; exact absurd rfl h
  | cons f fs ih =>
    intro _ h
    cases fs with
    | nil =>
      simp only [joinWith]
      exact splitOnChar_no_sep sep f (h f (List.mem_cons_self _ _))
    | cons g gs =>
      have hjoin : joinWith sep (f :: g :: gs) = f ++ sep :: joinWith sep (g :: gs) := rfl
      rw [hjoin, splitOnChar_append_sep sep f _ (h f (List.mem_cons_self _ _))]
      rw [ih (by simp) fun x hx c hc => h x (List.mem_cons_of_mem _ hx) c hc]

/-! ## Lemmas: the 4-decimal round trip -/

lemma splitSign_digit (c : Char) (cs : List Char) (h : c.isDigit = true) :
    splitSign (c :: cs) = (false, c :: cs) := by
  obtain ⟨-, -, h3, h4, -, -, -, -, -⟩ := isDigit_ne_special c h
  simp [splitSign, h3, h4]

lemma parseFloat_fmt4 (q : ℚ) : parseFloat (fmt4 q) = some ((num4 q : ℚ) / 10000) := by
  have hfp : (num4 q).natAbs % 10000 < 10000 := Nat.mod_lt _ (by norm_num)
  have hbody : splitOnChar '.'
      (intChars ((num4 q).natAbs / 10000) ++ '.' :: pad4 ((num4 q).natAbs % 10000))
      = [intChars ((num4 q).natAbs / 10000), pad4 ((num4 q).natAbs % 10000)] := by
    rw [splitOnChar_append_sep _ _ _
      (fun c hc => (isDigit_ne_special c (intChars_isDigit _ c hc)).1)]
    rw [splitOnChar_no_sep _ _
      (fun c hc => (isDigit_ne_special c (pad4_isDigit _ c hc)).1)]
  have hcond : (intChars ((num4 q).natAbs / 10000) ++ pad4 ((num4 q).natAbs % 10000)) ≠ []
      ∧ (intChars ((num4 q).natAbs / 10000) ++ pad4 ((num4 q).natAbs % 10000)).all
          Char.isDigit := by
    refine ⟨by simp [intChars_ne_nil], ?_⟩
    rw [List.all_eq_true]
    intro c hc
    rcases List.mem_append.mp hc with hc | hc
    · exact intChars_isDigit _ c hc
    · exact pad4_isDigit _ c hc
  have hval : (valOfDigitChars (intChars ((num4 q).natAbs / 10000)) : ℚ)
      + (valOfDigitChars (pad4 ((num4 q).natAbs % 10000)) : ℚ)
        / 10 ^ (pad4 ((num4 q).natAbs % 10000)).length
      = ((num4 q).natAbs : ℚ) / 10000 := by
    rw [valOf_intChars, valOf_pad4, pad4_length _ hfp]
    have hsum : ((num4 q).natAbs : ℚ)
        = 10000 * (((num4 q).natAbs / 10000 : ℕ) : ℚ) + (((num4 q).natAbs % 10000 : ℕ) : ℚ) := by
      exact_mod_cast congrArg (Nat.cast : ℕ → ℚ) (Nat.div_add_mod (num4 q).natAbs 10000).symm
    rw [hsum]
    field_simp
    ring
  have habs : ((num4 q).natAbs : ℚ) = |(num4 q : ℚ)| := by
    push_cast [Int.cast_natAbs]
    norm_num
  by_cases hneg : num4 q < 0
  · have hdata : (fmt4 q).data
        = '-' :: (intChars ((num4 q).natAbs / 10000)
            ++ '.' :: pad4 ((num4 q).natAbs % 10000)) := by
      simp [fmt4, hneg]
    have hss : splitSign (fmt4 q).data
        = (true, intChars ((num4 q).natAbs / 10000)
            ++ '.' :: pad4 ((num4 q).natAbs % 10000)) := by
      rw [hdata]; simp [splitSign]
    unfold parseFloat
    rw [hss]
    simp only [hbody]
    rw [if_pos hcond, hval]
    have : |(num4 q : ℚ)| = -(num4 q : ℚ) :=
      abs_of_neg (by exact_mod_cast hneg)
    rw [applySign, if_pos rfl, habs, this]
    ring_nf
  · obtain ⟨c, t, hct⟩ : ∃ c t, intChars ((num4 q).natAbs / 10000) = c :: t := by
      cases h : intChars ((num4 q).natAbs / 10000) with
      | nil => exact absurd h (intChars_ne_nil _)
      | cons c t => exact ⟨c, t, rfl⟩
    have hcdig : c.isDigit = true :=
      intChars_isDigit _ c (by rw [hct]; exact List.mem_cons_self _ _)
    have hdata : (fmt4 q).data
        = intChars ((num4 q).natAbs / 10000)
            ++ '.' :: pad4 ((num4 q).natAbs % 10000) := by
      simp [fmt4, hneg]
    have hss : splitSign (fmt4 q).data
        = (false, intChars ((num4 q).natAbs / 10000)
            ++ '.' :: pad4 ((num4 q).natAbs % 10000)) := by
      rw [hdata, hct, List.cons_append, splitSign_digit c _ hcdig, ← List.cons_append, ← hct]
    unfold parseFloat
    rw [hss]
    simp only [hbody]
    rw [if_pos hcond, hval]
    have : |(num4 q : ℚ)| = (num4 q : ℚ) :=
      abs_of_nonneg (by exact_mod_cast not_lt.mp hneg)
    rw [applySign, if_neg (by simp), habs, this]

lemma parseFloat_eval1 (s : String) (a : List Char)
    (hs : splitOnChar '.' (splitSign s.data).2 = [a])
    (hneg : (splitSign s.data).1 = false)
    (hne : a ≠ []) (hd : a.all Char.isDigit = true) :
    parseFloat s = some ((valOfDigitChars a : ℚ)) := by
  unfold parseFloat
  rw [hs]
  dsimp only
  rw [if_pos ⟨hne, hd⟩, hneg]
  simp [applySign]

lemma parseFloat_eval2 (s : String) (a b : List Char)
    (hs : splitOnChar '.' (splitSign s.data).2 = [a, b])
    (hneg : (splitSign s.data).1 = false)
    (hne : (a ++ b) ≠ []) (hd : (a ++ b).all Char.isDigit = true) :
    parseFloat s
      = some ((valOfDigitChars a : ℚ) + (valOfDigitChars b : ℚ) / 10 ^ b.length) := by
  unfold parseFloat
  rw [hs]
  dsimp only
  rw [if_pos ⟨hne, hd⟩, hneg]
  simp [applySign]

/-! ## Lemmas: CSV writing and re-reading -/

lemma cleanChar_spec (c : Char) (h : cleanChar c = true) :
    ¬ c = ',' ∧ ¬ c = '"' ∧ ¬ c = '\r' ∧ ¬ c = '\n' := by
  simpa [cleanChar] using h

lemma cleanChar_of_isDigit (c : Char) (h : c.isDigit = true) : cleanChar c = true := by
  obtain ⟨-, h2, -, -, h5, h6, h7, -, -⟩ := isDigit_ne_special c h
  simp [cleanChar, h2, h5, h6, h7]

lemma mem_joinWith (sep : Char) :
    ∀ (l : List (List Char)) (c : Char),
      c ∈ joinWith sep l → c = sep ∨ ∃ f ∈ l, c ∈ f := by
  intro l
  induction l with
  | nil => simp [joinWith]
  | cons f fs ih =>
    intro c hc
    cases fs with
    | nil => exact Or.inr ⟨f, by simp, by simpa [joinWith] using hc⟩
    | cons g gs =>
      rw [show joinWith sep (f :: g :: gs) = f ++ sep :: joinWith sep (g :: gs) from rfl] at hc
      rcases List.mem_append.mp hc with hc | hc
      · exact Or.inr ⟨f, List.mem_cons_self _ _, hc⟩
      · rcases List.mem_cons.mp hc with rfl | hc
        · exact Or.inl rfl
        · rcases ih c hc with h1 | ⟨f1, hf1, hcf1⟩
          · exact Or.inl h1
          · exact Or.inr ⟨f1, List.mem_cons_of_mem _ hf1, hcf1⟩

lemma csvLine_clean (r : List String) (hr : ∀ f ∈ r, cleanField f) :
    ∀ c ∈ csvLine r, ¬ c = '\r' ∧ ¬ c = '\n' := by
  intro c hc
  rcases mem_joinWith ',' _ c hc with rfl | ⟨f, hf, hcf⟩
  · exact ⟨by decide, by decide⟩
  · obtain ⟨s, hs, rfl⟩ := List.mem_map.mp hf
    have h1 := cleanChar_spec c (List.all_eq_true.mp (hr s hs) c hcf)
    exact ⟨h1.2.2.1, h1.2.2.2⟩

lemma writeCSV_cons (r : List String) (rows : List (List String)) :
    writeCSV (r :: rows) = csvLine r ++ '\r' :: '\n' :: writeCSV rows := rfl

lemma writeCSV_filter (rows : List (List String))
    (h : ∀ r ∈ rows, ∀ f ∈ r, cleanField f) :
    (writeCSV rows).filter (fun c => ¬ c = '\r')
      = rows.foldr (fun r acc => csvLine r ++ '\n' :: acc) [] := by
  induction rows with
  | nil => simp [writeCSV]
  | cons r rows ih =>
    have hline : (csvLine r).filter (fun c => decide (¬ c = '\r')) = csvLine r := by
      apply List.filter_eq_self.mpr
      intro c hc
      simpa using (csvLine_clean r (h r (List.mem_cons_self _ _)) c hc).1
    rw [writeCSV_cons, List.foldr_cons, List.filter_append]
    rw [show List.filter (fun c => decide (¬ c = '\r')) ('\r' :: '\n' :: writeCSV rows)
        = '\n' :: List.filter (fun c => decide (¬ c = '\r')) (writeCSV rows) by simp]
    rw [hline, ih fun r1 hr1 => h r1 (List.mem_cons_of_mem _ hr1)]

lemma splitNL_foldr (rows : List (List String))
    (h : ∀ r ∈ rows, ∀ f ∈ r, cleanField f) :
    splitOnChar '\n' (rows.foldr (fun r acc => csvLine r ++ '\n' :: acc) [])
      = rows.map csvLine ++ [[]] := by
  induction rows with
  | nil => simp [splitOnChar]
  | cons r rows ih =>
    rw [List.foldr_cons,
      splitOnChar_append_sep _ _ _
        (fun c hc => (csvLine_clean r (h r (List.mem_cons_self _ _)) c hc).2),
      ih fun r1 hr1 => h r1 (List.mem_cons_of_mem _ hr1)]
    simp

lemma splitComma_csvLine (r : List String) (hne : r ≠ [])
    (hclean : ∀ f ∈ r, cleanField f) :
    (splitOnChar ',' (csvLine r)).map String.mk = r := by
  unfold csvLine
  rw [splitOnChar_joinWith ',' (r.map String.data) (by simpa using hne)
    (fun f hf c hc => ?_)]
  · rw [List.map_map]
    have hid : (String.mk ∘ String.data) = id := funext fun s => rfl
    rw [hid, List.map_id]
  · obtain ⟨s, hs, rfl⟩ := List.mem_map.mp hf
    exact (cleanChar_spec c (List.all_eq_true.mp (hclean s hs) c hc)).1

lemma readCSV_writeCSV (rows : List (List String))
    (h : ∀ r ∈ rows, r ≠ [] ∧ ∀ f ∈ r, cleanField f) :
    readCSV (writeCSV rows) = rows := by
  unfold readCSV dropTrailingEmpty
  rw [show (writeCSV rows).filter (fun c => ¬ c = '\r')
      = rows.foldr (fun r acc => csvLine r ++ '\n' :: acc) []
    from writeCSV_filter rows fun r hr => (h r hr).2]
  rw [splitNL_foldr rows fun r hr => (h r hr).2]
  rw [show (rows.map csvLine ++ [([] : List Char)]).getLast? = some [] from
    List.getLast?_concat _]
  rw [if_pos rfl, List.dropLast_concat, List.map_map]
  have : ∀ r ∈ rows, ((fun l => (splitOnChar ',' l).map String.mk) ∘ csvLine) r = r := by
    intro r hr
    exact splitComma_csvLine r (h r hr).1 (h r hr).2
  calc rows.map ((fun l => (splitOnChar ',' l).map String.mk) ∘ csvLine)
      = rows.map id := List.map_congr_left this
  _ = rows := List.map_id rows

lemma natToString_clean (n : ℕ) : cleanField (natToString n) := by
  unfold cleanField natToString
  rw [List.all_eq_true]
  intro c hc
  exact cleanChar_of_isDigit c (intChars_isDigit n c hc)

lemma data_mk (l : List Char) : (String.mk l).data = l := rfl

lemma fmt4_clean (q : ℚ) : cleanField (fmt4 q) := by
  unfold cleanField fmt4
  rw [data_mk, List.all_eq_true]
  intro c hc
  rcases List.mem_append.mp hc with hc1 | hc1
  · rcases List.mem_append.mp hc1 with hc2 | hc2
    · split_ifs at hc2 with hs
      · rcases List.mem_singleton.mp hc2 with rfl
        decide
      · simp at hc2
    · exact cleanChar_of_isDigit c (intChars_isDigit _ c hc2)
  · rcases List.mem_cons.mp hc1 with rfl | hc3
    · decide
    · exact cleanChar_of_isDigit c (pad4_isDigit _ c hc3)

lemma empty_clean : cleanField "" := rfl

lemma t2Field_clean (t2v : Option ℚ) : cleanField (t2Field t2v) := by
  unfold t2Field
  rcases t2v with - | w
  · exact empty_clean
  · by_cases hw : w = 0
    · simp [hw, empty_clean]
    · simp [hw, fmt4_clean]

lemma roField_clean (rov : Option ℚ) : cleanField (roField rov) := by
  unfold roField
  rcases rov with - | w
  · exact empty_clean
  · exact fmt4_clean w

/-! ## Lemmas: the extraction loops -/

lemma stepQubit_chip_t1 (era chip : String) (i : ℕ) (q : QubitInput) (st : ExtState) :
    (stepQubit era chip i q st).chip_t1 = st.chip_t1 ++ qubitT1Delta q := by
  rcases q with ⟨ps, b, c⟩
  cases ps with
  | exn => simp [stepQubit, qubitT1Delta]
  | ok op =>
    rcases op with - | p
    · simp [stepQubit, qubitT1Delta]
    · rcases p with ⟨t1, t2, ro⟩
      rcases t1 with - | t <;> rcases t2 with - | u <;>
        rcases hro : ro_resolve ro b c with - | v <;>
          simp [stepQubit, qubitT1Delta, accT1, accT2, accRo, emitRow, hro]

lemma stepQubit_era_t1 (era chip : String) (i : ℕ) (q : QubitInput) (st : ExtState) :
    (stepQubit era chip i q st).era_t1 = st.era_t1 ++ qubitT1Delta q := by
  rcases q with ⟨ps, b, c⟩
  cases ps with
  | exn => simp [stepQubit, qubitT1Delta]
  | ok op =>
    rcases op with - | p
    · simp [stepQubit, qubitT1Delta]
    · rcases p with ⟨t1, t2, ro⟩
      rcases t1 with - | t <;> rcases t2 with - | u <;>
        rcases hro : ro_resolve ro b c with - | v <;>
          simp [stepQubit, qubitT1Delta, accT1, accT2, accRo, emitRow, hro]

lemma processQubits_chip_t1 (era chip : String) :
    ∀ (qs : List QubitInput) (i : ℕ) (st : ExtState),
      (processQubits era chip i qs st).chip_t1
        = st.chip_t1 ++ (qs.map qubitT1Delta).flatten := by
  intro qs
  induction qs with
  | nil => intro i st; simp [processQubits]
  | cons q qs ih =>
    intro i st
    rw [show processQubits era chip i (q :: qs) st
        = processQubits era chip (i + 1) qs (stepQubit era chip i q st) from rfl]
    rw [ih, stepQubit_chip_t1]
    simp

lemma processQubits_era_t1 (era chip : String) :
    ∀ (qs : List QubitInput) (i : ℕ) (st : ExtState),
      (processQubits era chip i qs st).era_t1
        = st.era_t1 ++ (qs.map qubitT1Delta).flatten := by
  intro qs
  induction qs with
  | nil => intro i st; simp [processQubits]
  | cons q qs ih =>
    intro i st
    rw [show processQubits era chip i (q :: qs) st
        = processQubits era chip (i + 1) qs (stepQubit era chip i q st) from rfl]
    rw [ih, stepQubit_era_t1]
    simp

lemma processDevice_chip_t1 (era : String) (d : Device) (st : ExtState) :
    (processDevice era d st).chip_t1 = (d.qubits.map qubitT1Delta).flatten := by
  unfold processDevice
  rw [processQubits_chip_t1]
  rfl

lemma processDevice_era_t1 (era : String) (d : Device) (st : ExtState) :
    (processDevice era d st).era_t1
      = st.era_t1 ++ (d.qubits.map qubitT1Delta).flatten := by
  unfold processDevice
  rw [processQubits_era_t1]

lemma runEra_era_t1 (era : String) :
    ∀ (ds : List Device) (st : ExtState),
      (runEra era ds st).era_t1
        = st.era_t1
            ++ (ds.map (fun d => (d.qubits.map qubitT1Delta).flatten)).flatten := by
  intro ds
  induction ds with
  | nil => intro st; simp [runEra]
  | cons d ds ih =>
    intro st
    rw [show runEra era (d :: ds) st = runEra era ds (processDevice era d st) from rfl]
    rw [ih, processDevice_era_t1]
    simp

/-! ## Claim theorems -/

/-- C4: a sub-unit whose properties accessor raises (`Src.exn`) or yields a
falsy value (`ok none`) contributes zero rows and zero entries to every
accumulator — the state is returned unchanged — and the qubit loop then
continues with the remaining indices exactly as if started there, so the
failure never short-circuits the device, generation or run. -/
theorem subunit_failure_is_local (era chip : String) (i : ℕ)
    (b c : Src (Option ℚ)) (rest : List QubitInput) (st : ExtState) :
    stepQubit era chip i ⟨.exn, b, c⟩ st = st
    ∧ stepQubit era chip i ⟨.ok none, b, c⟩ st = st
    ∧ processQubits era chip i (⟨.exn, b, c⟩ :: rest) st
        = processQubits era chip (i + 1) rest st
    ∧ processQubits era chip i (⟨.ok none, b, c⟩ :: rest) st
        = processQubits era chip (i + 1) rest st := by
  have h1 : stepQubit era chip i ⟨.exn, b, c⟩ st = st := rfl
  have h2 : stepQubit era chip i ⟨.ok none, b, c⟩ st = st := rfl
  refine ⟨h1, h2, ?_, ?_⟩
  · rw [show processQubits era chip i (⟨.exn, b, c⟩ :: rest) st
        = processQubits era chip (i + 1) rest (stepQubit era chip i ⟨.exn, b, c⟩ st)
      from rfl, h1]
  · rw [show processQubits era chip i (⟨.ok none, b, c⟩ :: rest) st
        = processQubits era chip (i + 1) rest (stepQubit era chip i ⟨.ok none, b, c⟩ st)
      from rfl, h2]

/-- C10: a sub-unit with Duration B present but Duration A absent emits no
row, yet its Duration-B value is appended to both the per-device and the
per-generation accumulators, so the console medians can draw on sub-units
that never appear in the exported file. -/
theorem t2_without_t1_pooled_no_row (era chip : String) (i : ℕ) (v : ℚ)
    (ro : Option ℚ) (b c : Src (Option ℚ)) (st : ExtState) :
    (stepQubit era chip i ⟨.ok (some ⟨none, some v, ro⟩), b, c⟩ st).rows = st.rows
    ∧ (stepQubit era chip i ⟨.ok (some ⟨none, some v, ro⟩), b, c⟩ st).chip_t2
        = st.chip_t2 ++ [microseconds v]
    ∧ (stepQubit era chip i ⟨.ok (some ⟨none, some v, ro⟩), b, c⟩ st).era_t2
        = st.era_t2 ++ [microseconds v]
    ∧ (stepQubit era chip i ⟨.ok (some ⟨none, some v, ro⟩), b, c⟩ st).chip_t1
        = st.chip_t1
    ∧ (stepQubit era chip i ⟨.ok (some ⟨none, some v, ro⟩), b, c⟩ st).era_t1
        = st.era_t1 := by
  rcases hro : ro_resolve ro b c with - | w <;>
    simp [stepQubit, accT1, accT2, accRo, emitRow, hro]

/-- C9: a sub-unit whose Duration B converts to exactly zero has the zero
appended to both Duration-B accumulators (so it moves the reported
medians), yet the emitted row — the serialization tests truthiness, not
presence — is character-for-character the row of the same sub-unit with
Duration B absent. -/
theorem t2_zero_pooled_but_blank (era chip : String) (i : ℕ) (t1o ro : Option ℚ)
    (b c : Src (Option ℚ)) (st : ExtState) :
    (stepQubit era chip i ⟨.ok (some ⟨t1o, some 0, ro⟩), b, c⟩ st).chip_t2
        = st.chip_t2 ++ [0]
    ∧ (stepQubit era chip i ⟨.ok (some ⟨t1o, some 0, ro⟩), b, c⟩ st).era_t2
        = st.era_t2 ++ [0]
    ∧ (stepQubit era chip i ⟨.ok (some ⟨t1o, some 0, ro⟩), b, c⟩ st).rows
        = (stepQubit era chip i ⟨.ok (some ⟨t1o, none, ro⟩), b, c⟩ st).rows := by
  rcases t1o with - | t <;> rcases hro : ro_resolve ro b c with - | w <;>
    simp [stepQubit, accT1, accT2, accRo, emitRow, mkRow, t2Field, roField, hro,
      microseconds]

/-- C1 (amended): a processed sub-unit emits a row iff Duration A is
present; Duration B and the error rate may each be absent without blocking
emission; Duration A and a present error rate are serialized with 4
decimal places, while Duration B is serialized with 4 decimal places only
when present AND nonzero — a present-but-zero Duration B, like an absent
one, serializes as the empty string (the claim's unconditional "numeric
fields are formatted to 4 decimal places" fails exactly there, see the
counterexample). -/
theorem row_emission_and_serialization (era chip : String) (i : ℕ)
    (t2o roo : Option ℚ) (b c : Src (Option ℚ)) (st : ExtState) :
    (stepQubit era chip i ⟨.ok (some ⟨none, t2o, roo⟩), b, c⟩ st).rows = st.rows
    ∧ ∀ t : ℚ,
        (stepQubit era chip i ⟨.ok (some ⟨some t, t2o, roo⟩), b, c⟩ st).rows
          = st.rows ++ [[era, chip, natToString i, fmt4 (microseconds t),
              (match t2o with
               | some v => if v = 0 then "" else fmt4 (microseconds v)
               | none => ""),
              (match ro_resolve roo b c with
               | some v => fmt4 v
               | none => "")]] := by
  constructor
  · rcases t2o with - | u <;> rcases hro : ro_resolve roo b c with - | w <;>
      simp [stepQubit, accT1, accT2, accRo, emitRow, hro]
  · intro t
    rcases t2o with - | u
    · rcases hro : ro_resolve roo b c with - | w <;>
        simp [stepQubit, accT1, accT2, accRo, emitRow, mkRow, t2Field, roField, hro]
    · by_cases hu : u = 0
      · subst hu
        rcases hro : ro_resolve roo b c with - | w <;>
          simp [stepQubit, accT1, accT2, accRo, emitRow, mkRow, t2Field, roField, hro,
            microseconds]
      · have hu6 : ¬ microseconds u = 0 := by
          simp [microseconds, hu]
        rcases hro : ro_resolve roo b c with - | w <;>
          simp [stepQubit, accT1, accT2, accRo, emitRow, mkRow, t2Field, roField, hro,
            hu, hu6]

/-- C1 is false exactly as stated: a sub-unit with Duration A present and
Duration B present but zero emits a row whose Duration-B field is the
empty string, although a numeric field formatted to 4 decimal places would
read `0.0000` (`fmt4 0 ≠ ""`). -/
theorem c1_counterexample :
    (stepQubit "E" "c" 0 ⟨.ok (some ⟨some 1, some 0, none⟩), .exn, .exn⟩
        initState).rows
      = [["E", "c", natToString 0, fmt4 1000000, "", ""]]
    ∧ fmt4 0 ≠ "" := by
  constructor
  · have hro : ro_resolve none .exn .exn = none := rfl
    norm_num [stepQubit, accT1, accT2, accRo, emitRow, mkRow, t2Field, roField, hro,
      initState, microseconds]
  · have h0 : num4 0 = 0 := by norm_num [num4]
    unfold fmt4
    rw [h0]
    decide

/-- C3 (amended): the readout chain is the claim's ordered first-non-null
fallback with one exception — a zero from the `measure`-operation source
is treated as not found (truthiness, not a null test) — and a value from
the direct property is never overridden by the later sources. -/
theorem readout_chain_amended (a : Option ℚ) (b c : Src (Option ℚ)) :
    ro_resolve a b c = roChainAmended a b c
    ∧ ∀ v : ℚ, ro_resolve (some v) b c = some (v * 100) := by
  constructor
  · rcases a with - | v <;> rcases b with (- | w) | - <;> rcases c with (- | x) | - <;>
      simp only [ro_resolve, roChainAmended, srcVal, Option.or] <;>
      (try split_ifs) <;>
      simp [Option.or]
  · intro v
    rfl

/-- C3 is false as stated: with the direct property absent, the
`measure`-operation source yielding the non-null value `0`, and the legacy
source yielding `1`, the claim's stop-at-first-non-null chain returns
`0 * 100 = 0`, but the code falls through the zero and returns the legacy
`1 * 100 = 100`. -/
theorem c3_counterexample :
    roChainClaim none (.ok (some 0)) (.ok (some 1)) = some 0
    ∧ ro_resolve none (.ok (some 0)) (.ok (some 1)) = some 100
    ∧ (some (0 : ℚ)) ≠ some (100 : ℚ) := by
  refine ⟨?_, ?_, by norm_num⟩
  · norm_num [roChainClaim, srcVal, Option.or]
  · norm_num [ro_resolve]

/-- C2 (amended): the per-device ratio substitutes zero whenever the
Duration-A median is not positive, so no division is performed there; the
per-generation ratio, by contrast, is an unguarded division whose result
is non-numeric (modelled `none`) whenever the pooled Duration-A median is
zero — only the per-device statistic carries the claimed guard. -/
theorem ratio_guards (st : ExtState) :
    (st.chip_t1 ≠ [] → ∃ rep, chipReport st = some rep
      ∧ (¬ 0 < median st.chip_t1 → rep.ratio = 0)
      ∧ (0 < median st.chip_t1 →
          rep.ratio
            = (if st.chip_t2 = [] then 0 else median st.chip_t2) / median st.chip_t1))
    ∧ (st.era_t1 ≠ [] → st.era_t2 ≠ [] → median st.era_t1 = 0 →
        ∃ r, eraReport st = some r ∧ r.grand_ratio = none) := by
  constructor
  · intro h
    unfold chipReport
    rw [if_neg h]
    refine ⟨_, rfl, ?_, ?_⟩
    · intro hm
      dsimp only
      rw [if_neg hm]
    · intro hm
      dsimp only
      rw [if_pos hm]
  · intro h1 h2 h0
    unfold eraReport
    rw [if_neg h1]
    refine ⟨_, rfl, ?_⟩
    dsimp only
    rw [if_neg h2]
    simp [h0]

/-- Witness for `ratio_guards`: a chip whose only Duration-A value is `0`
gets the substituted zero ratio, and a generation whose pooled lists are
`[0]` gets a non-numeric generation ratio. -/
theorem ratio_guards_witness :
    (chipReport ⟨[0], [], [], [], [], []⟩).map ChipReport.ratio = some 0
    ∧ (eraReport ⟨[], [], [], [0], [0], []⟩).map EraReport.grand_ratio = some none := by
  constructor
  · obtain ⟨rep, h1, h2, -⟩ := (ratio_guards ⟨[0], [], [], [], [], []⟩).1 (by simp)
    rw [h1]
    simp [h2 (by norm_num [median, sortQ, insertSorted])]
  · obtain ⟨r, h1, h2⟩ :=
      (ratio_guards ⟨[], [], [], [0], [0], []⟩).2 (by simp) (by simp)
        (by norm_num [median, sortQ, insertSorted])
    rw [h1]
    simp [h2]

/-- C2 is false as stated: run a generation with one device whose single
qubit has T1 = T2 = 0.  The pooled Duration-A median is zero, and the
reported generation ratio is the unguarded division's non-numeric result
(`none`), not the substituted zero the claim promises for every ratio. -/
theorem c2_counterexample :
    eraReport (runEra "E"
        [⟨"c", [⟨.ok (some ⟨some 0, some 0, none⟩), .exn, .exn⟩]⟩] initState)
      = some ⟨1, 0, some 0, none⟩
    ∧ (some (⟨1, 0, some 0, none⟩ : EraReport)).map EraReport.grand_ratio
        ≠ some (some 0) := by
  constructor
  · have hro : ro_resolve none .exn .exn = none := rfl
    have hrun : runEra "E"
        [⟨"c", [⟨.ok (some ⟨some 0, some 0, none⟩), .exn, .exn⟩]⟩] initState
        = { chip_t1 := [0], chip_t2 := [0], chip_ro := [],
            era_t1 := [0], era_t2 := [0],
            rows := [["E", "c", natToString 0, fmt4 0, "", ""]] } := by
      norm_num [runEra, processDevice, processQubits, stepQubit, accT1, accT2, accRo,
        emitRow, mkRow, t2Field, roField, hro, initState, microseconds]
    rw [hrun]
    norm_num [eraReport, median, sortQ, insertSorted]
  · simp

/-- C5: after a generation's devices are processed, the pooled
per-generation Duration-A list is exactly the concatenation of the
per-device Duration-A lists, the reported generation aggregate is the
statistical median of that pooled multiset (not an average of per-device
medians), and the generation summary is skipped entirely when the pool is
empty. -/
theorem generation_median_of_pooled (era : String) (ds : List Device)
    (rows0 : List (List String)) :
    (runEra era ds { initState with rows := rows0 }).era_t1
        = (ds.map (fun d => (processDevice era d initState).chip_t1)).flatten
    ∧ ((ds.map (fun d => (processDevice era d initState).chip_t1)).flatten ≠ [] →
        ∃ r, eraReport (runEra era ds { initState with rows := rows0 }) = some r
          ∧ r.grand_t1
              = median ((ds.map (fun d => (processDevice era d initState).chip_t1)).flatten))
    ∧ ((ds.map (fun d => (processDevice era d initState).chip_t1)).flatten = [] →
        eraReport (runEra era ds { initState with rows := rows0 }) = none) := by
  have hP : (runEra era ds { initState with rows := rows0 }).era_t1
      = (ds.map (fun d => (processDevice era d initState).chip_t1)).flatten := by
    rw [runEra_era_t1]
    simp [processDevice_chip_t1, initState]
  refine ⟨hP, ?_, ?_⟩
  · intro h
    unfold eraReport
    rw [hP, if_neg h]
    refine ⟨_, rfl, ?_⟩
    dsimp only
  · intro h
    unfold eraReport
    rw [hP, if_pos h]

/-- Witness for `generation_median_of_pooled`: one device, one qubit with
T1 = 1 second; the pooled list is `[1000000]` and the summary reports its
median. -/
theorem generation_median_of_pooled_witness :
    (eraReport (runEra "E"
        [⟨"c", [⟨.ok (some ⟨some 1, none, none⟩), .exn, .exn⟩]⟩]
        { initState with rows := [] })).map EraReport.grand_t1
      = some (median [microseconds 1]) := by
  have hpool : (([⟨"c", [⟨.ok (some ⟨some 1, none, none⟩), .exn, .exn⟩]⟩] :
        List Device).map
      (fun d => (processDevice "E" d initState).chip_t1)).flatten
      = [microseconds 1] := by
    simp [processDevice_chip_t1, qubitT1Delta]
  obtain ⟨r, h1, h2⟩ :=
    (generation_median_of_pooled "E"
      [⟨"c", [⟨.ok (some ⟨some 1, none, none⟩), .exn, .exn⟩]⟩] []).2.1
      (by rw [hpool]; simp)
  rw [hpool] at h2
  rw [h1]
  simp [h2]

/-- C6 (amended): numeric cleaning maps `"10,000"` to `10000`, `"7.5K"` to
`7500` and `"128"` to `128`; an entry WITHOUT the K marker that fails to
parse becomes a missing value whose row is silently dropped; but an entry
WITH the K marker whose remainder fails to parse raises a conversion error
to the caller (the `.astype(float)` on the masked rows is not protected by
`errors='coerce'`) instead of being dropped. -/
theorem cleaning_rules :
    clean_entry "10,000" = .ok (some 10000)
    ∧ clean_entry "7.5K" = .ok (some 7500)
    ∧ clean_entry "128" = .ok (some 128)
    ∧ clean_entry "abc" = .ok none
    ∧ cleanColumn ["10,000", "7.5K", "abc", "128"] = .ok [10000, 7500, 128]
    ∧ (∀ s : String, hasKmark (stripCommas s.data) = false →
        parseFloat (String.mk (stripCommas s.data)) = none →
        clean_entry s = .ok none)
    ∧ (∀ s : String, hasKmark (stripCommas s.data) = true →
        parseFloat (String.mk (stripKmark (stripCommas s.data))) = none →
        clean_entry s = .error ()) := by
  have hp1 : parseFloat "10000" = some 10000 := by
    rw [parseFloat_eval1 "10000" "10000".data (by decide) (by decide) (by decide)
      (by decide)]
    norm_num [show valOfDigitChars "10000".data = 10000 from by decide]
  have hp2 : parseFloat "7.5" = some (15 / 2) := by
    rw [parseFloat_eval2 "7.5" ['7'] ['5'] (by decide) (by decide) (by decide)
      (by decide)]
    norm_num [show valOfDigitChars ['7'] = 7 from by decide,
      show valOfDigitChars ['5'] = 5 from by decide]
  have hp3 : parseFloat "128" = some 128 := by
    rw [parseFloat_eval1 "128" "128".data (by decide) (by decide) (by decide)
      (by decide)]
    norm_num [show valOfDigitChars "128".data = 128 from by decide]
  have e1 : clean_entry "10,000" = .ok (some 10000) := by
    rw [show clean_entry "10,000" = .ok (parseFloat "10000") from by decide]
    rw [hp1]
  have e2 : clean_entry "7.5K" = .ok (some 7500) := by
    unfold clean_entry
    rw [if_pos (show hasKmark (stripCommas "7.5K".data) = true from by decide)]
    rw [show String.mk (stripKmark (stripCommas "7.5K".data)) = "7.5" from by decide]
    rw [hp2]
    norm_num
  have e3 : clean_entry "128" = .ok (some 128) := by
    unfold clean_entry
    rw [if_neg (show ¬ hasKmark (stripCommas "128".data) = true from by decide)]
    rw [show String.mk (stripCommas "128".data) = "128" from by decide]
    rw [hp3]
  have e4 : clean_entry "abc" = .ok none := by decide
  refine ⟨e1, e2, e3, e4, ?_, ?_, ?_⟩
  · rw [show cleanColumn ["10,000", "7.5K", "abc", "128"]
        = match clean_entry "10,000", cleanColumn ["7.5K", "abc", "128"] with
          | .error _, _ => .error ()
          | _, .error _ => .error ()
          | .ok none, .ok vs => .ok vs
          | .ok (some v), .ok vs => .ok (v :: vs) from rfl]
    rw [show cleanColumn ["7.5K", "abc", "128"]
        = match clean_entry "7.5K", cleanColumn ["abc", "128"] with
          | .error _, _ => .error ()
          | _, .error _ => .error ()
          | .ok none, .ok vs => .ok vs
          | .ok (some v), .ok vs => .ok (v :: vs) from rfl]
    rw [show cleanColumn ["abc", "128"]
        = match clean_entry "abc", cleanColumn ["128"] with
          | .error _, _ => .error ()
          | _, .error _ => .error ()
          | .ok none, .ok vs => .ok vs
          | .ok (some v), .ok vs => .ok (v :: vs) from rfl]
    rw [show cleanColumn ["128"]
        = match clean_entry "128", cleanColumn [] with
          | .error _, _ => .error ()
          | _, .error _ => .error ()
          | .ok none, .ok vs => .ok vs
          | .ok (some v), .ok vs => .ok (v :: vs) from rfl]
    rw [e1, e2, e3, e4]
    rfl
  · intro s h1 h2
    unfold clean_entry
    rw [if_neg (by simp [h1]), h2]
  · intro s h1 h2
    unfold clean_entry
    rw [if_pos h1, h2]

/-- Witness for `cleaning_rules`: the general drop rule applied to the
markerless `"abc"`, and the general raise rule applied to `"abcK"`. -/
theorem cleaning_rules_witness :
    clean_entry "abc" = .ok none ∧ clean_entry "abcK" = .error () := by
  constructor
  · exact cleaning_rules.2.2.2.2.2.1 "abc" (by decide) (by decide)
  · exact cleaning_rules.2.2.2.2.2.2 "abcK" (by decide) (by decide)

/-- C6 is false as stated: the entry `"abcK"` still fails to parse after
cleaning, but instead of becoming a dropped missing value it raises a
conversion error to the caller. -/
theorem c6_counterexample :
    clean_entry "abcK" = .error ()
    ∧ (Except.error () : Except Unit (Option ℚ)) ≠ .ok none := by
  exact ⟨by decide, by decide⟩

/-- C7: a roadmap subset with fewer than two points is silently skipped (no
trend line, no error); otherwise the log2-space least-squares line is
sampled at exactly two points, at the subset's minimum and maximum year,
and the legend states the doubling period `12 / slope` months for a
positive fitted slope and the no-growth label for a non-positive one. -/
theorem trend_fit_endpoints_and_legend (pts : List (ℚ × ℚ)) :
    (pts.length < 2 → process_fit pts = none)
    ∧ (2 ≤ pts.length → ∃ tl, process_fit pts = some tl
        ∧ tl.points.map Prod.fst = [minYear pts, maxYear pts]
        ∧ tl.points.length = 2
        ∧ (0 < fitSlope pts → tl.legend = Legend.doubling (12 / fitSlope pts))
        ∧ (fitSlope pts ≤ 0 → tl.legend = Legend.noGrowth)) := by
  constructor
  · intro h
    unfold process_fit
    rw [if_pos h]
  · intro h
    unfold process_fit
    rw [if_neg (by omega)]
    refine ⟨_, rfl, by simp, by simp, ?_, ?_⟩
    · intro hs
      dsimp only
      rw [if_pos hs]
    · intro hs
      dsimp only
      rw [if_neg (not_lt.mpr hs)]

/-- Witness for `trend_fit_endpoints_and_legend`: the singleton subset
yields no trend line; the spec's two-point subset `(2020, 27), (2022, 127)`
yields a two-sample line whose fitted slope is the positive
`(log2 127 - log2 27) / 2`, so the legend is the doubling period
`12 / slope`. -/
theorem trend_fit_witness :
    process_fit [((2020 : ℚ), (27 : ℚ))] = none
    ∧ (process_fit [((2020 : ℚ), (27 : ℚ)), ((2022 : ℚ), (127 : ℚ))]).map
          (List.length ∘ TrendLine.points) = some 2
    ∧ (process_fit [((2020 : ℚ), (27 : ℚ)), ((2022 : ℚ), (127 : ℚ))]).map
          TrendLine.legend
        = some (Legend.doubling
            (12 / fitSlope [((2020 : ℚ), (27 : ℚ)), ((2022 : ℚ), (127 : ℚ))])) := by
  have hslope : fitSlope [((2020 : ℚ), (27 : ℚ)), ((2022 : ℚ), (127 : ℚ))]
      = (Real.logb 2 127 - Real.logb 2 27) / 2 := by
    unfold fitSlope
    simp [log2q]
    ring_nf
  have hpos : 0 < fitSlope [((2020 : ℚ), (27 : ℚ)), ((2022 : ℚ), (127 : ℚ))] := by
    rw [hslope]
    have h1 : Real.logb 2 27 < Real.logb 2 127 :=
      Real.logb_lt_logb (by norm_num) (by norm_num) (by norm_num)
    linarith
  obtain ⟨tl, h1, -, h3, h4, -⟩ :=
    (trend_fit_endpoints_and_legend
      [((2020 : ℚ), (27 : ℚ)), ((2022 : ℚ), (127 : ℚ))]).2 (by decide)
  refine ⟨(trend_fit_endpoints_and_legend [((2020 : ℚ), (27 : ℚ))]).1 (by decide), ?_, ?_⟩
  · rw [h1]
    simpa using h3
  · rw [h1]
    simp [h4 hpos]

/-- C8: writing the flat file (one header row, then one row per kept
reading in the fixed field order generation, device, sub-unit index,
Duration A, Duration B, error percent) and re-reading it reproduces every
row byte-for-byte — in particular every (generation, device, index) tuple
— and the Duration-A field parses back to exactly the serialized
4-decimal rounding of the original value.  The hypothesis asks only that
the name fields contain no CSV metacharacters, which holds for every
generation label and chip name the extractor uses. -/
theorem csv_roundtrip (rs : List Reading)
    (hclean : ∀ r ∈ rs, cleanField r.era ∧ cleanField r.chip) :
    readCSV (writeCSV (header :: rs.map (fun r => mkRow r.era r.chip r.idx r.t1 r.t2 r.ro)))
      = header :: rs.map (fun r => mkRow r.era r.chip r.idx r.t1 r.t2 r.ro)
    ∧ ∀ r ∈ rs, parseNat (natToString r.idx) = some r.idx
        ∧ parseFloat (fmt4 r.t1) = some ((num4 r.t1 : ℚ) / 10000) := by
  constructor
  · apply readCSV_writeCSV
    intro row hrow
    rcases List.mem_cons.mp hrow with rfl | hrow
    · exact ⟨by decide, by decide⟩
    · obtain ⟨r, hr, rfl⟩ := List.mem_map.mp hrow
      refine ⟨by simp [mkRow], ?_⟩
      intro f hf
      simp only [mkRow, List.mem_cons, List.not_mem_nil, or_false] at hf
      rcases hf with rfl | rfl | rfl | rfl | rfl | rfl
      · exact (hclean r hr).1
      · exact (hclean r hr).2
      · exact natToString_clean r.idx
      · exact fmt4_clean r.t1
      · exact t2Field_clean r.t2
      · exact roField_clean r.ro
  · intro r hr
    exact ⟨parseNat_natToString r.idx, parseFloat_fmt4 r.t1⟩

/-- Witness for `csv_roundtrip`: a single kept reading with the real era
label `Falcon (2020/21)` and chip name `Hanoi`. -/
theorem csv_roundtrip_witness :
    readCSV (writeCSV (header :: [mkRow "Falcon (2020/21)" "Hanoi" 0 100 none none]))
      = header :: [mkRow "Falcon (2020/21)" "Hanoi" 0 100 none none]
    ∧ parseNat (natToString 0) = some 0
    ∧ parseFloat (fmt4 100) = some ((num4 100 : ℚ) / 10000) := by
  have h := csv_roundtrip [⟨"Falcon (2020/21)", "Hanoi", 0, 100, none, none⟩]
    (by
      intro r hr
      rcases List.mem_singleton.mp hr with rfl
      exact ⟨by decide, by decide⟩)
  refine ⟨?_, ?_, ?_⟩
  · simpa using h.1
  · exact (h.2 _ (List.mem_singleton.mpr rfl)).1
  · exact (h.2 _ (List.mem_singleton.mpr rfl)).2

end QHE

